import Mathlib

/-!
Shallow embedding of the CardLists checklist normalizer
(`scripts/parse-panini-checklist-csv.py`) and of the release-derivation part
of the dataset flattener (`export/build_parquet.py`), together with proofs
about the grouping, merging, synthesis, deduplication and serialization
behaviour of those scripts.

Python strings are embedded as Lean `String`; Python `str.strip`,
`str.startswith`, `str.isdigit` and slicing are embedded as executable
functions over `String.data`.  Python `set` values are embedded as
duplicate-free lists built by `addSetStr` / `addSetNat`, compared by the
two-sided containment test `setEqStr`, which coincides with mathematical
set equality of the underlying lists.  The nondeterministic `uuid` field is
not modelled: no claim mentions it.  Fatal runtime errors (the `KeyError`
raised on an empty input frame) are modelled with `Except`.
-/

set_option maxHeartbeats 1000000

namespace CardLists

/-- Characters removed by Python `str.strip()` with no argument. -/
def pyWhitespace (c : Char) : Bool :=
  c == ' ' || c == '\t' || c == '\n' || c == '\r' || c == '\x0b' || c == '\x0c'

/-- Drop the characters satisfying `p` from both ends of a character list. -/
def stripBy (p : Char → Bool) (l : List Char) : List Char :=
  ((l.dropWhile p).reverse.dropWhile p).reverse

/-- Embeds `normalize_text`: trim surrounding whitespace (Python `str.strip()`). -/
def normalize_text (s : String) : String :=
  ⟨stripBy pyWhitespace s.data⟩

/-- Embeds the `.strip(" -")` applied to parallel-name suffixes. -/
def stripSpaceDash (s : String) : String :=
  ⟨stripBy (fun c => c == ' ' || c == '-') s.data⟩

/-- Embeds Python `str.isdigit` (restricted to ASCII digits): nonempty and
all digits. -/
def isAllDigits (s : String) : Bool :=
  !s.data.isEmpty && s.data.all Char.isDigit

/-- Decimal value of a digit list, as used by Python `int(...)` on an
all-digits string. -/
def digitsToNat (l : List Char) : Nat :=
  l.foldl (fun a c => a * 10 + (c.toNat - 48)) 0

/-- Embeds `normalize_card_number`: trim, and if the result is all digits
replace it by the canonical decimal string `str(int(...))` (leading zeros
stripped). -/
def normalize_card_number (s : String) : String :=
  let t := normalize_text s
  if isAllDigits t then toString (digitsToNat t.data) else t

/-- Embeds `int(seq_str) if seq_str.isdigit() else None` applied to a trimmed
sequence cell. -/
def parseSeq (s : String) : Option Nat :=
  let t := normalize_text s
  if isAllDigits t then some (digitsToNat t.data) else none

/-- Boolean test that `pat` occurs at the head of `l`
(Python `startswith`, character by character). -/
def leadsWith : List Char → List Char → Bool
  | _, [] => true
  | [], _ :: _ => false
  | a :: as, b :: bs => a == b && leadsWith as bs

/-- Embeds Python `s.startswith(pre)`. -/
def strStartsWith (s pre : String) : Bool :=
  leadsWith s.data pre.data

/-- Boolean test that `pat` occurs contiguously somewhere in `l`
(Python `in` on strings). -/
def hasSeq : List Char → List Char → Bool
  | l, pat =>
    match l with
    | [] => pat.isEmpty
    | _ :: rest => leadsWith l pat || hasSeq rest pat

/-- ASCII lowercasing of one character (Python `str.lower` on the ASCII
range relevant to the substring tests). -/
def lowerChar (c : Char) : Char :=
  if 65 ≤ c.toNat && c.toNat ≤ 90 then Char.ofNat (c.toNat + 32) else c

/-- Embeds `set_name.lower()`. -/
def strToLower (s : String) : String :=
  ⟨s.data.map lowerChar⟩

/-- Embeds `get_attributes_for_set`: case-insensitive substring tests for
"autograph" and "relic" on the set name. -/
def get_attributes_for_set (set_name : String) : List String :=
  (if hasSeq (strToLower set_name).data "autograph".data then ["AU"] else []) ++
  (if hasSeq (strToLower set_name).data "relic".data then ["RELIC"] else [])

/-- One CSV record, all cells as raw strings (missing cells are ""). -/
structure RawRow where
  year : String
  brand : String
  program : String
  sport : String
  cardSet : String
  cardNumber : String
  athlete : String
  sequence : String
deriving Repr, DecidableEq

/-- An intermediate group: one base checklist and its parallel rows. -/
structure Group where
  base_set : String
  base_rows : List RawRow
  parallel_rows : List (RawRow × String)
deriving Repr, DecidableEq

/-- One step loop body of the initial grouping pass of
`process_csv_with_pandas`: rows whose trimmed `CARD SET` equals the current
base set extend `base_rows`; rows whose trimmed `CARD SET` starts with the
base set followed by a space extend `parallel_rows` with the trimmed,
space-and-dash-stripped suffix as parallel name; any other row closes the
current group and starts a new one. -/
def groupRowsAux (cur : Group) : List RawRow → List Group
  | [] => [cur]
  | row :: rest =>
    if normalize_text row.cardSet == cur.base_set then
      groupRowsAux { cur with base_rows := cur.base_rows ++ [row] } rest
    else if strStartsWith (normalize_text row.cardSet) (cur.base_set ++ " ") then
      groupRowsAux { cur with parallel_rows := cur.parallel_rows ++
        [(row, stripSpaceDash (normalize_text
          ⟨(normalize_text row.cardSet).data.drop (cur.base_set.data.length + 1)⟩))] } rest
    else
      cur :: groupRowsAux ⟨normalize_text row.cardSet, [row], []⟩ rest

/-- The initial grouping pass over the whole row list. -/
def groupRows : List RawRow → List Group
  | [] => []
  | row :: rest => groupRowsAux ⟨normalize_text row.cardSet, [row], []⟩ rest

/-- The (canonical card number, trimmed athlete) key list of a group's base
rows, as built by `get_base_keys` inside `is_parallel_candidate`. -/
def baseKeys (g : Group) : List (String × String) :=
  g.base_rows.map (fun r => (normalize_card_number r.cardNumber, normalize_text r.athlete))

/-- Two-sided containment: embeds equality of the two Python sets of keys. -/
def setEqPairs (l1 l2 : List (String × String)) : Bool :=
  l1.all (fun k => l2.contains k) && l2.all (fun k => l1.contains k)

/-- Embeds `is_parallel_candidate`: the base-row key sets of the two groups
are equal. -/
def is_parallel_candidate (g1 g2 : Group) : Bool :=
  setEqPairs (baseKeys g1) (baseKeys g2)

/-- Merge one group into the list of already finalized groups: scan in
order, and fold the group into the first parallel candidate (its base rows
become parallel rows named after its base set, its parallel rows are
appended unchanged); append it as a new finalized group when none matches. -/
def mergeInto : List Group → Group → List Group
  | [], g => [g]
  | m :: rest, g =>
    if is_parallel_candidate m g then
      { m with parallel_rows :=
          m.parallel_rows ++ g.base_rows.map (fun r => (r, normalize_text g.base_set))
            ++ g.parallel_rows } :: rest
    else
      m :: mergeInto rest g

/-- The merging pass: process groups in original order against the list of
finalized groups. -/
def mergeGroups (gs : List Group) : List Group :=
  gs.foldl mergeInto []

/-- A parallel entry: name plus optional "numbered to" limit. -/
structure Parallel where
  name : String
  numberedTo : Option Nat
deriving Repr, DecidableEq

/-- An output card.  The Python dict keys `numberedTo`, `attributes`,
`parallels` and `note` are present in the serialized object exactly when the
corresponding field here is `some` / nonempty (see the serializers below);
`uniqueId` is not modelled. -/
structure Card where
  number : String
  name : String
  numberedTo : Option Nat
  attributes : List String
  parallels : List Parallel
  note : Option String
deriving Repr, DecidableEq

/-- Python `set.add` on a set of strings embedded as a duplicate-free list:
append when not already present. -/
def addSetStr (l : List String) (x : String) : List String :=
  if l.contains x then l else l ++ [x]

/-- Python `set.add` on a set of naturals embedded as a duplicate-free
list. -/
def addSetNat (l : List Nat) (x : Nat) : List Nat :=
  if l.contains x then l else l ++ [x]

/-- Two-sided containment: embeds Python `==` on two sets of card-number
strings. -/
def setEqStr (l1 l2 : List String) : Bool :=
  l1.all (fun k => l2.contains k) && l2.all (fun k => l1.contains k)

/-- The set of canonical card numbers of a row list (`base_card_numbers`
after the base loop, `parallel_card_numbers` for one parallel group). -/
def rowNumbers (rows : List RawRow) : List String :=
  rows.foldl (fun l r => addSetStr l (normalize_card_number r.cardNumber)) []

/-- The set of distinct parsed sequence values of a row list
(`base_sequences` / `parallel_sequences`): `None` values are not added. -/
def distinctSeqs (rows : List RawRow) : List Nat :=
  rows.foldl (fun l r =>
    match parseSeq r.sequence with
    | some v => addSetNat l v
    | none => l) []

/-- Embeds `if sequences and len(sequences) == 1: sequences.pop()`: the
promoted value when the distinct non-absent sequence values are exactly one
value, else absent. -/
def uniformSeqOf (rows : List RawRow) : Option Nat :=
  match distinctSeqs rows with
  | [v] => some v
  | _ => none

/-- One base card as it stands after the base-row loop and the cleanup loop
of `process_csv_with_pandas`: when the base sequences collapsed uniformly
the per-card value is removed, otherwise a present value becomes the card's
`numberedTo`. -/
def buildBaseCard (attrs : List String) (uniform : Bool) (r : RawRow) : Card :=
  { number := normalize_card_number r.cardNumber
    name := normalize_text r.athlete
    numberedTo := if uniform then none else parseSeq r.sequence
    attributes := attrs
    parallels := []
    note := none }

/-- The base cards of a group after uniform-sequence cleanup. -/
def baseCards (g : Group) : List Card :=
  g.base_rows.map
    (buildBaseCard (get_attributes_for_set g.base_set) (uniformSeqOf g.base_rows).isSome)

/-- The mutable state of the parallel-processing loop: the growing card
list, the (possibly enlarged) set of card numbers, and the set-level
parallels recorded so far. -/
structure ParState where
  cards : List Card
  nums : List String
  setParallels : List Parallel
deriving Repr, DecidableEq

/-- Append parallel `p` to the first card whose number is `num`; `none` when
no card matches (the inner `for card_obj in base_cards ... break` search). -/
def attachFirst (p : Parallel) (num : String) : List Card → Option (List Card)
  | [] => none
  | c :: rest =>
    if c.number == num then
      some ({ c with parallels := c.parallels ++ [p] } :: rest)
    else
      (attachFirst p num rest).map (fun l => c :: l)

/-- The placeholder card synthesized for a parallel row with no matching
base card: note "No Base Set Version", the parallel as its sole entry, the
set-level inferred attributes, and the row's own parsed sequence. -/
def synthCard (attrs : List String) (pname : String) (r : RawRow) : Card :=
  { number := normalize_card_number r.cardNumber
    name := normalize_text r.athlete
    numberedTo := parseSeq r.sequence
    attributes := attrs
    parallels := [{ name := pname, numberedTo := parseSeq r.sequence }]
    note := some "No Base Set Version" }

/-- Card-level attachment of one parallel row: attach to the first matching
card, else synthesize a placeholder card and enlarge the card-number set. -/
def attachRow (attrs : List String) (pname : String) (st : ParState) (r : RawRow) : ParState :=
  let num := normalize_card_number r.cardNumber
  let p : Parallel := { name := pname, numberedTo := parseSeq r.sequence }
  match attachFirst p num st.cards with
  | some cards2 => { st with cards := cards2 }
  | none =>
      { st with
        cards := st.cards ++ [synthCard attrs pname r]
        nums := addSetStr st.nums num }

/-- Process one parallel-name group: when its covered card numbers equal the
current card-number set, record a single set-level parallel (with the
uniform-collapse rule on the group's rows); otherwise attach row by row. -/
def processName (attrs : List String) (st : ParState) (pr : String × List RawRow) : ParState :=
  let pname := pr.1
  let rows := pr.2
  if setEqStr (rowNumbers rows) st.nums then
    { st with setParallels :=
        st.setParallels ++ [{ name := pname, numberedTo := uniformSeqOf rows }] }
  else
    rows.foldl (attachRow attrs pname) st

/-- Group the parallel rows by parallel name preserving first-appearance
order of names and row order within one name (`dict.setdefault` on an
insertion-ordered dict). -/
def insertByName : List (String × List RawRow) → String → RawRow → List (String × List RawRow)
  | [], n, r => [(n, [r])]
  | (m, rs) :: rest, n, r =>
    if m == n then (m, rs ++ [r]) :: rest else (m, rs) :: insertByName rest n r

/-- Embeds the construction of `parallels_by_name`. -/
def groupByName (prs : List (RawRow × String)) : List (String × List RawRow) :=
  prs.foldl (fun acc pr => insertByName acc pr.2 pr.1) []

/-- The (number, name) key used by the duplicate-removal step. -/
def cardKey (c : Card) : String × String :=
  (c.number, c.name)

/-- The duplicate-removal loop: keep the first card of each key not already
seen, and report whether any duplicate was skipped. -/
def dedup (seen : List (String × String)) : List Card → List Card × Bool
  | [] => ([], false)
  | c :: rest =>
    if seen.contains (cardKey c) then
      ((dedup seen rest).1, true)
    else
      ((c :: (dedup (seen ++ [cardKey c]) rest).1), (dedup (seen ++ [cardKey c]) rest).2)

/-- The warning printed when duplicates were dropped from a set. -/
def dupMsg (set_name : String) : String :=
  "Warning: Duplicate records found in set \x27" ++ set_name ++
    "\x27. Please manually verify the accuracy."

/-- An output set: name, cards, set-level parallels, optional sequence
limit.  The `variations` field is the constant empty list (see
`serializeSetFields`); `uniqueId` is not modelled. -/
structure CardSet where
  name : String
  cards : List Card
  parallels : List Parallel
  numberedTo : Option Nat
deriving Repr, DecidableEq

/-- The state after the whole parallel-processing loop of one group,
starting from the cleaned base cards and the base card numbers. -/
def parStateOf (g : Group) : ParState :=
  (groupByName g.parallel_rows).foldl (processName (get_attributes_for_set g.base_set))
    { cards := baseCards g, nums := rowNumbers g.base_rows, setParallels := [] }

/-- Convert one merged group into a set object plus the warnings it prints:
build the cleaned base cards, run the parallel-processing loop starting
from the base card numbers, deduplicate, and assemble. -/
def processGroup (g : Group) : CardSet × List String :=
  ({ name := g.base_set
     cards := (dedup [] (parStateOf g).cards).1
     parallels := (parStateOf g).setParallels
     numberedTo := uniformSeqOf g.base_rows },
   if (dedup [] (parStateOf g).cards).2 then [dupMsg g.base_set] else [])

/-- The release document: composite name plus the ordered sets.  The
constant `$schema` / `version` / empty `attributes` / `notes` fields appear
in `serializeDocFields`; `uniqueId` is not modelled. -/
structure Doc where
  name : String
  sets : List CardSet
deriving Repr, DecidableEq

/-- Embeds `process_csv_with_pandas` on the parsed row list.  An empty
frame makes `df.loc[0, "YEAR"]` raise a `KeyError`, modelled as `.error`;
otherwise the run groups, merges, synthesizes and assembles the document. -/
def process_csv (rows : List RawRow) : Except String Doc :=
  match rows with
  | [] => Except.error "KeyError: 0 (no rows: top-level metadata unavailable)"
  | r0 :: _ =>
    Except.ok
      { name := normalize_text r0.year ++ " " ++ normalize_text r0.brand ++ " " ++
          normalize_text r0.program ++ " " ++ normalize_text r0.sport
        sets := (mergeGroups (groupRows rows)).map (fun g => (processGroup g).1) }

/-- All warnings printed by a run (duplicate warnings, in set order). -/
def processWarnings (rows : List RawRow) : List String :=
  ((mergeGroups (groupRows rows)).map (fun g => (processGroup g).2)).flatten

/-- A JSON value, as produced by `json.dump` on the assembled dictionaries. -/
inductive Json where
  | str : String → Json
  | num : Nat → Json
  | arr : List Json → Json
  | obj : List (String × Json) → Json
  | null : Json
deriving Repr

/-- The key/value fields of one serialized parallel object: `name`, plus
`numberedTo` exactly when present. -/
def serializeParallelFields (p : Parallel) : List (String × Json) :=
  [("name", Json.str p.name)] ++
  (match p.numberedTo with
   | some v => [("numberedTo", Json.num v)]
   | none => [])

/-- One serialized parallel object. -/
def serializeParallel (p : Parallel) : Json :=
  Json.obj (serializeParallelFields p)

/-- The key/value fields of one serialized card object, with the sparse
conventions of the script: `note`, `numberedTo`, `attributes` and
`parallels` appear exactly when nonempty / present (`uniqueId` omitted from
the model). -/
def serializeCardFields (c : Card) : List (String × Json) :=
  [("number", Json.str c.number), ("name", Json.str c.name)] ++
  (match c.note with
   | some s => [("note", Json.str s)]
   | none => []) ++
  (match c.numberedTo with
   | some v => [("numberedTo", Json.num v)]
   | none => []) ++
  (if c.attributes.isEmpty then []
   else [("attributes", Json.arr (c.attributes.map Json.str))]) ++
  (if c.parallels.isEmpty then []
   else [("parallels", Json.arr (c.parallels.map serializeParallel))])

/-- One serialized card object. -/
def serializeCard (c : Card) : Json :=
  Json.obj (serializeCardFields c)

/-- The key/value fields of one serialized set object: the script always
emits `cards`, `parallels` and `variations` (the latter two possibly empty
arrays), and `numberedTo` only when a uniform base sequence was promoted. -/
def serializeSetFields (s : CardSet) : List (String × Json) :=
  [("name", Json.str s.name),
   ("cards", Json.arr (s.cards.map serializeCard)),
   ("parallels", Json.arr (s.parallels.map serializeParallel)),
   ("variations", Json.arr [])] ++
  (match s.numberedTo with
   | some v => [("numberedTo", Json.num v)]
   | none => [])

/-- One serialized set object. -/
def serializeSet (s : CardSet) : Json :=
  Json.obj (serializeSetFields s)

/-- The key/value fields of the serialized release document: the script
always emits the schema tag, composite name, version, empty `attributes`
and `notes` arrays, and the sets (`uniqueId` omitted from the model). -/
def serializeDocFields (d : Doc) : List (String × Json) :=
  [("$schema", Json.str "http://json-schema.org/draft-07/schema#"),
   ("name", Json.str d.name),
   ("version", Json.str "1.0"),
   ("attributes", Json.arr []),
   ("notes", Json.arr []),
   ("sets", Json.arr (d.sets.map serializeSet))]

/-- The serialized release document. -/
def serializeDoc (d : Doc) : Json :=
  Json.obj (serializeDocFields d)

/-- Embeds the `__main__` block: run the normalizer, and write the
serialized document only when it succeeded.  A failing run produces no
output. -/
def runMain (rows : List RawRow) : Option Json :=
  match process_csv rows with
  | Except.ok d => some (serializeDoc d)
  | Except.error _ => none

/-- One flattened record of `build_parquet.flatten_card_data`.  The
`attributes` and `note` fields read the serialized card back with defaults
`[]` and `""`, which the sparse serialization makes equal to the card's own
fields. -/
structure FlatRecord where
  category : String
  year : String
  release : String
  source : String
  set : String
  card_number : String
  card_name : String
  attributes : List String
  note : String
deriving Repr, DecidableEq

/-- Embeds `flatten_card_data`: one record per (set, card) pair, in order. -/
def flatten_card_data (category year release : String) (d : Doc) : List FlatRecord :=
  (d.sets.map (fun s =>
    s.cards.map (fun c =>
      { category := category
        year := year
        release := release
        source := d.name
        set := s.name
        card_number := c.number
        card_name := c.name
        attributes := c.attributes
        note := c.note.getD "" }))).flatten

/-- The tail of a character list after its first hyphen, when one occurs. -/
def afterFirstHyphen : List Char → Option (List Char)
  | [] => none
  | c :: rest => if c == '-' then some rest else afterFirstHyphen rest

/-- Embeds the release derivation of `build_parquet.main`:
`parts = stem.split("-", 1); release = parts[1] if len(parts) == 2 else
parts[0]`, i.e. everything after the first hyphen of the filename stem, or
the whole stem when it has no hyphen. -/
def releaseFromStem (stem : String) : String :=
  match afterFirstHyphen stem.data with
  | some rest => ⟨rest⟩
  | none => stem

/-- Modelled from the spec (for comparison only, not from the source): the
claimed release derivation, "the filename after stripping a leading
year-and-hyphen token". -/
def releaseSpec (year stem : String) : String :=
  if strStartsWith stem (year ++ "-") then ⟨stem.data.drop (year.data.length + 1)⟩
  else stem

/-- The records contributed by one JSON file found at
`categories/<category>/<year>/<stem>.json` holding document `d`. -/
def fileRecords (category year stem : String) (d : Doc) : List FlatRecord :=
  flatten_card_data category year (releaseFromStem stem) d

/-- All rows carried by one group, base rows first. -/
def groupRowList (g : Group) : List RawRow :=
  g.base_rows ++ g.parallel_rows.map Prod.fst

/-- A sample CSV row with fixed release metadata, used by the concrete
instances below. -/
def sampleRow (cs num ath seq : String) : RawRow :=
  { year := "2020", brand := "Panini", program := "Prizm", sport := "Basketball"
    cardSet := cs, cardNumber := num, athlete := ath, sequence := seq }

/-- Concrete group: one base row with sequence "10" and one parallel row
whose card number has no base version but carries sequence "25". -/
def gC1a : Group :=
  ⟨"S", [sampleRow "S" "1" "A" "10"], [(sampleRow "S Gold" "2" "B" "25", "Gold")]⟩

/-- Concrete group: two base rows, sequences "10" and absent. -/
def gC1b : Group :=
  ⟨"S", [sampleRow "S" "1" "A" "10", sampleRow "S" "2" "B" ""], []⟩

/-- Concrete group: a full-coverage parallel where only one of its two rows
carries a sequence value. -/
def gC2x : Group :=
  ⟨"S", [sampleRow "S" "1" "A" "", sampleRow "S" "2" "B" ""],
    [(sampleRow "S Gold" "1" "A" "25", "Gold"), (sampleRow "S Gold" "2" "B" "", "Gold")]⟩

/-- Concrete group: parallel name "A" synthesizes a placeholder for card 2
before name "B" (covering cards 1 and 2) is classified. -/
def gC10a : Group :=
  ⟨"S", [sampleRow "S" "1" "A" ""],
    [(sampleRow "S A" "2" "B" "", "A"),
     (sampleRow "S B" "1" "A" "", "B"),
     (sampleRow "S B" "2" "B" "", "B")]⟩

/-- The same parallel rows as `gC10a`, with the rows of name "B" first. -/
def gC10b : Group :=
  ⟨"S", [sampleRow "S" "1" "A" ""],
    [(sampleRow "S B" "1" "A" "", "B"),
     (sampleRow "S B" "2" "B" "", "B"),
     (sampleRow "S A" "2" "B" "", "A")]⟩

/-- A row whose set name extends "Topps" by the parallel suffix "Gold". -/
def rowC4 : RawRow := sampleRow "Topps Gold" "1" "A" ""

/-- Concrete group whose base rows all carry the same sequence value 10. -/
def gUni : Group :=
  ⟨"S", [sampleRow "S" "1" "A" "10", sampleRow "S" "2" "B" "10"], []⟩

/-- The second card carries the same sequence and note payload as the
first: used to trace cards through the parallel-attachment loop, which
only ever appends to a card's `parallels` list. -/
def samePayload (c c2 : Card) : Prop :=
  c2.numberedTo = c.numberedTo ∧ c2.note = c.note

/-- A finalized group unrelated to `gDup`. -/
def gOther : Group := ⟨"T", [sampleRow "T" "9" "Z" ""], []⟩

/-- A finalized group whose base keys match those of `gDup`. -/
def gBase : Group := ⟨"S", [sampleRow "S" "1" "A" ""], []⟩

/-- A later group with the same base keys as `gBase`, to be merged. -/
def gDup : Group := ⟨"S Gold", [sampleRow "S Gold" "1" "A" "25"], []⟩

/-- A one-row input producing a set with no set-level parallels. -/
def rowC5 : RawRow := sampleRow "Topps" "1" "A" ""

/-- The document produced by running the normalizer on `[rowC5]`. -/
def docC5 : Doc :=
  { name := "2020 Panini Prizm Basketball"
    sets := [⟨"Topps", [⟨"1", "A", none, [], [], none⟩], [], none⟩] }

/-- A card with key ("1", "A") and no sequence. -/
def cDup1 : Card := ⟨"1", "A", none, [], [], none⟩

/-- A second card with the same key ("1", "A"). -/
def cDup2 : Card := ⟨"1", "A", some 5, [], [], none⟩

/-- A card with the distinct key ("2", "B"). -/
def cDup3 : Card := ⟨"2", "B", none, [], [], none⟩

/-! ## Helper lemmas -/

theorem contains_eq_memStr (l : List String) (a : String) : l.contains a = true ↔ a ∈ l := by
  simp [List.contains]

theorem contains_eq_memPair (l : List (String × String)) (a : String × String) :
    l.contains a = true ↔ a ∈ l := by
  simp [List.contains]

theorem setEqStr_iff (l1 l2 : List String) :
    setEqStr l1 l2 = true ↔ ∀ x, x ∈ l1 ↔ x ∈ l2 := by
  simp only [setEqStr, Bool.and_eq_true, List.all_eq_true]
  constructor
  · rintro ⟨h1, h2⟩ x
    exact ⟨fun hx => (contains_eq_memStr _ _).1 (h1 x hx),
           fun hx => (contains_eq_memStr _ _).1 (h2 x hx)⟩
  · intro h
    exact ⟨fun x hx => (contains_eq_memStr _ _).2 ((h x).1 hx),
           fun x hx => (contains_eq_memStr _ _).2 ((h x).2 hx)⟩

theorem setEqPairs_iff (l1 l2 : List (String × String)) :
    setEqPairs l1 l2 = true ↔ ∀ k, k ∈ l1 ↔ k ∈ l2 := by
  simp only [setEqPairs, Bool.and_eq_true, List.all_eq_true]
  constructor
  · rintro ⟨h1, h2⟩ k
    exact ⟨fun hk => (contains_eq_memPair _ _).1 (h1 k hk),
           fun hk => (contains_eq_memPair _ _).1 (h2 k hk)⟩
  · intro h
    exact ⟨fun k hk => (contains_eq_memPair _ _).2 ((h k).1 hk),
           fun k hk => (contains_eq_memPair _ _).2 ((h k).2 hk)⟩

theorem leadsWith_append (p t : List Char) : leadsWith (p ++ t) p = true := by
  induction p with
  | nil => cases t <;> rfl
  | cons a as ih => simp [leadsWith, ih]

theorem leadsWith_iff (l p : List Char) : leadsWith l p = true ↔ ∃ t, l = p ++ t := by
  induction p generalizing l with
  | nil =>
    constructor
    · intro _; exact ⟨l, rfl⟩
    · intro _; cases l <;> rfl
  | cons b bs ih =>
    cases l with
    | nil =>
      constructor
      · intro h; exact absurd h (by simp [leadsWith])
      · rintro ⟨t, ht⟩; exact absurd ht (by simp)
    | cons a as =>
      simp only [leadsWith, Bool.and_eq_true, beq_iff_eq, ih, List.cons_append]
      constructor
      · rintro ⟨rfl, t, rfl⟩; exact ⟨t, rfl⟩
      · rintro ⟨t, h⟩
        injection h with h1 h2
        exact ⟨h1, t, h2⟩

/-! ## C4: the row-grouping step -/

/-- C4: one step of the row grouper.  A row whose trimmed set name equals
the current base set is appended to `base_rows`; a row whose trimmed set
name is the base set followed by a space and a suffix is appended to
`parallel_rows` with the suffix trimmed of surrounding whitespace, spaces
and hyphens as parallel name; any other row (including one whose set name
merely contains the base set without the space-delimited prefix shape)
closes the current group and opens a new group named by that row's trimmed
set name. -/
theorem C4_grouping_step (g : Group) (rest : List RawRow) (r : RawRow) :
    (normalize_text r.cardSet = g.base_set →
      groupRowsAux g (r :: rest) =
        groupRowsAux { g with base_rows := g.base_rows ++ [r] } rest) ∧
    (∀ sfx : String,
      normalize_text r.cardSet = g.base_set ++ " " ++ sfx →
      groupRowsAux g (r :: rest) =
        groupRowsAux { g with parallel_rows :=
          g.parallel_rows ++ [(r, stripSpaceDash (normalize_text sfx))] } rest) ∧
    (normalize_text r.cardSet ≠ g.base_set →
      (∀ sfx : String, normalize_text r.cardSet ≠ g.base_set ++ " " ++ sfx) →
      groupRowsAux g (r :: rest) =
        g :: groupRowsAux ⟨normalize_text r.cardSet, [r], []⟩ rest) := by
  refine ⟨?_, ?_, ?_⟩
  · intro h
    simp [groupRowsAux, h]
  · intro sfx hs
    have hne : ¬ ((normalize_text r.cardSet == g.base_set) = true) := by
      simp only [beq_iff_eq, hs]
      intro heq
      have hlen := congrArg (fun s : String => s.data.length) heq
      simp only [String.data_append, List.length_append, List.length_singleton] at hlen
      omega
    have hsw : strStartsWith (normalize_text r.cardSet) (g.base_set ++ " ") = true := by
      rw [strStartsWith, hs]
      have hd : (g.base_set ++ " " ++ sfx).data = (g.base_set ++ " ").data ++ sfx.data :=
        String.data_append (g.base_set ++ " ") sfx
      rw [hd]
      exact leadsWith_append _ _
    have hdrop : (normalize_text r.cardSet).data.drop (g.base_set.data.length + 1) = sfx.data := by
      rw [hs]
      have h1 : (g.base_set ++ " " ++ sfx).data = (g.base_set.data ++ [' ']) ++ sfx.data := by
        rw [String.data_append, String.data_append]
      rw [h1]
      have h2 : (g.base_set.data ++ [' ']).length = g.base_set.data.length + 1 := by simp
      rw [← h2, List.drop_left]
    simp only [groupRowsAux]
    rw [if_neg hne, if_pos hsw, hdrop]
  · intro h1 h2
    have hne : ¬ ((normalize_text r.cardSet == g.base_set) = true) := by
      simpa [beq_iff_eq] using h1
    have hsw : ¬ (strStartsWith (normalize_text r.cardSet) (g.base_set ++ " ") = true) := by
      intro hsw
      rcases (leadsWith_iff _ _).1 hsw with ⟨t, ht⟩
      apply h2 ⟨t⟩
      apply String.ext
      rw [String.data_append]
      exact ht
    simp only [groupRowsAux]
    rw [if_neg hne, if_neg hsw]

/-- Witness for C4: a concrete "Topps Gold" row joins a "Topps" group as a
parallel row named "Gold". -/
theorem C4_grouping_step_witness :
    groupRowsAux ⟨"Topps", [], []⟩ [rowC4] =
      groupRowsAux ⟨"Topps", [], [(rowC4, stripSpaceDash (normalize_text "Gold"))]⟩ [] :=
  (C4_grouping_step ⟨"Topps", [], []⟩ [] rowC4).2.1 "Gold" (by decide)

/-! ## C3: the group-merging pass -/

/-- C3: one step of the merge pass against the finalized list.  A group
merges into the first finalized group whose base-row key set (canonical
card number, trimmed athlete) is set-equal to its own, its base rows
becoming parallel rows named after its base set and its parallel rows
appended unchanged; with no match it is appended as a new finalized group.
The candidate test is exact set equality of the key sets. -/
theorem C3_merge (gs : List Group) (g : Group)
    (hbs : normalize_text g.base_set = g.base_set) :
    ((∀ m ∈ gs, is_parallel_candidate m g = false) → mergeInto gs g = gs ++ [g]) ∧
    (∀ pre A post, gs = pre ++ A :: post →
      (∀ m ∈ pre, is_parallel_candidate m g = false) →
      is_parallel_candidate A g = true →
      mergeInto gs g = pre ++
        ({ A with parallel_rows := A.parallel_rows ++
            g.base_rows.map (fun r => (r, g.base_set)) ++ g.parallel_rows }) :: post) ∧
    (∀ A, is_parallel_candidate A g = true ↔ ∀ k, k ∈ baseKeys A ↔ k ∈ baseKeys g) := by
  refine ⟨?_, ?_, fun A => by rw [is_parallel_candidate, setEqPairs_iff]⟩
  · intro h
    induction gs with
    | nil => rfl
    | cons m rest ih =>
      have hm : is_parallel_candidate m g = false := h m (List.mem_cons_self m rest)
      simp only [mergeInto, hm, Bool.false_eq_true, if_false, List.cons_append]
      rw [ih (fun m2 hm2 => h m2 (List.mem_cons_of_mem m hm2))]
  · intro pre A post hgs hpre hA
    subst hgs
    induction pre with
    | nil =>
      simp only [List.nil_append, mergeInto, hA, if_true]
      rw [hbs]
    | cons p pre2 ih =>
      have hp : is_parallel_candidate p g = false := hpre p (List.mem_cons_self p pre2)
      simp only [List.cons_append, mergeInto, hp, Bool.false_eq_true, if_false,
        List.append_eq]
      rw [ih (fun m2 hm2 => hpre m2 (List.mem_cons_of_mem p hm2))]

/-- Witness for C3: the concrete group `gDup` skips the non-matching
`gOther` and merges into `gBase`. -/
theorem C3_merge_witness :
    mergeInto [gOther, gBase] gDup = [gOther] ++
      ({ gBase with parallel_rows := gBase.parallel_rows ++
          gDup.base_rows.map (fun r => (r, gDup.base_set)) ++ gDup.parallel_rows }) :: [] :=
  (C3_merge [gOther, gBase] gDup (by decide)).2.1 [gOther] gBase [] rfl
    (by decide) (by decide)

/-! ## C7: partition completeness of the grouper -/

theorem groupRowsAux_perm (rest : List RawRow) (cur : Group) :
    (((groupRowsAux cur rest).map groupRowList).flatten).Perm (groupRowList cur ++ rest) := by
  induction rest generalizing cur with
  | nil => simp [groupRowsAux, groupRowList]
  | cons r rest ih =>
    by_cases h1 : (normalize_text r.cardSet == cur.base_set) = true
    · rw [show groupRowsAux cur (r :: rest) =
          groupRowsAux { cur with base_rows := cur.base_rows ++ [r] } rest by
        simp only [groupRowsAux]; rw [if_pos h1]]
      refine (ih _).trans ?_
      simp only [groupRowList]
      have h2 : ((cur.base_rows ++ [r]) ++ cur.parallel_rows.map Prod.fst) ++ rest =
          (cur.base_rows ++ ([r] ++ cur.parallel_rows.map Prod.fst)) ++ rest := by
        simp [List.append_assoc]
      rw [h2]
      refine ((List.perm_append_comm.append_left cur.base_rows).append_right rest).trans ?_
      have h4 : (cur.base_rows ++ (cur.parallel_rows.map Prod.fst ++ [r])) ++ rest =
          (cur.base_rows ++ cur.parallel_rows.map Prod.fst) ++ (r :: rest) := by
        simp [List.append_assoc]
      rw [h4]
    · by_cases h2 : strStartsWith (normalize_text r.cardSet) (cur.base_set ++ " ") = true
      · rw [show groupRowsAux cur (r :: rest) =
            groupRowsAux { cur with parallel_rows := cur.parallel_rows ++
              [(r, stripSpaceDash (normalize_text
                ⟨(normalize_text r.cardSet).data.drop (cur.base_set.data.length + 1)⟩))] } rest by
          simp only [groupRowsAux]; rw [if_neg h1, if_pos h2]]
        refine (ih _).trans ?_
        simp only [groupRowList, List.map_append, List.map_cons, List.map_nil]
        have h4 : (cur.base_rows ++ (cur.parallel_rows.map Prod.fst ++ [r])) ++ rest =
            (cur.base_rows ++ cur.parallel_rows.map Prod.fst) ++ (r :: rest) := by
          simp [List.append_assoc]
        rw [h4]
      · rw [show groupRowsAux cur (r :: rest) =
            cur :: groupRowsAux ⟨normalize_text r.cardSet, [r], []⟩ rest by
          simp only [groupRowsAux]; rw [if_neg h1, if_neg h2]]
        simp only [List.map_cons, List.flatten_cons]
        refine ((ih _).append_left (groupRowList cur)).trans ?_
        have h5 : groupRowList ⟨normalize_text r.cardSet, [r], []⟩ = [r] := by
          simp [groupRowList]
        rw [h5]
        simp

/-- C7: every input row occurrence survives grouping exactly once: the rows
held by all groups (base rows plus parallel rows) are a permutation of the
input row list, hence every row value occurs across all groups exactly as
often as in the input. -/
theorem C7_partition (rows : List RawRow) :
    (((groupRows rows).map groupRowList).flatten).Perm rows ∧
    ∀ r : RawRow, ((groupRows rows).map groupRowList).flatten.count r = rows.count r := by
  have hp : (((groupRows rows).map groupRowList).flatten).Perm rows := by
    cases rows with
    | nil => simp [groupRows]
    | cons r rest =>
      have h := groupRowsAux_perm rest ⟨normalize_text r.cardSet, [r], []⟩
      simpa [groupRows, groupRowList] using h
  exact ⟨hp, fun r => hp.count_eq r⟩

/-! ## C6: duplicate removal -/

theorem dedup_sublist (l : List Card) (seen : List (String × String)) :
    ((dedup seen l).1).Sublist l := by
  induction l generalizing seen with
  | nil => simp [dedup]
  | cons c rest ih =>
    by_cases h : (seen.contains (cardKey c)) = true
    · simp only [dedup, h, if_true]
      exact (ih seen).cons c
    · simp only [dedup, h, Bool.false_eq_true, if_false]
      exact (ih _).cons₂ c

theorem dedup_not_seen (l : List Card) (seen : List (String × String)) :
    ∀ c ∈ (dedup seen l).1, cardKey c ∉ seen := by
  induction l generalizing seen with
  | nil => intro c hc; simp [dedup] at hc
  | cons c rest ih =>
    intro c2 hc2
    by_cases h : (seen.contains (cardKey c)) = true
    · simp only [dedup, h, if_true] at hc2
      exact ih seen c2 hc2
    · simp only [dedup, h, Bool.false_eq_true, if_false] at hc2
      rcases List.mem_cons.1 hc2 with rfl | hmem
      · exact fun hmem2 => h ((contains_eq_memPair _ _).2 hmem2)
      · intro hin
        exact (ih (seen ++ [cardKey c]) c2 hmem) (List.mem_append_left _ hin)

theorem dedup_keys_nodup (l : List Card) (seen : List (String × String)) :
    (((dedup seen l).1).map cardKey).Nodup := by
  induction l generalizing seen with
  | nil => simp [dedup]
  | cons c rest ih =>
    by_cases h : (seen.contains (cardKey c)) = true
    · simp only [dedup, h, if_true]
      exact ih seen
    · simp only [dedup, h, Bool.false_eq_true, if_false, List.map_cons, List.nodup_cons]
      refine ⟨?_, ih _⟩
      intro hmem
      rcases List.mem_map.1 hmem with ⟨c2, hc2, hkey⟩
      exact dedup_not_seen rest (seen ++ [cardKey c]) c2 hc2
        (List.mem_append_right _ (by simp [hkey]))

theorem dedup_covers (l : List Card) (seen : List (String × String)) :
    ∀ c ∈ l, cardKey c ∈ seen ∨ ∃ c2 ∈ (dedup seen l).1, cardKey c2 = cardKey c := by
  induction l generalizing seen with
  | nil => intro c hc; cases hc
  | cons c rest ih =>
    intro c3 hc3
    by_cases h : (seen.contains (cardKey c)) = true
    · simp only [dedup, h, if_true]
      rcases List.mem_cons.1 hc3 with rfl | hmem
      · exact Or.inl ((contains_eq_memPair _ _).1 h)
      · exact ih seen c3 hmem
    · simp only [dedup, h, Bool.false_eq_true, if_false]
      rcases List.mem_cons.1 hc3 with rfl | hmem
      · exact Or.inr ⟨c3, List.mem_cons_self _ _, rfl⟩
      · rcases ih (seen ++ [cardKey c]) c3 hmem with hseen | ⟨c2, hc2, hkey⟩
        · rcases List.mem_append.1 hseen with hs | hk
          · exact Or.inl hs
          · exact Or.inr ⟨c, List.mem_cons_self _ _,
              ((by simpa using hk : cardKey c3 = cardKey c)).symm⟩
        · exact Or.inr ⟨c2, List.mem_cons_of_mem _ hc2, hkey⟩

theorem dedup_find (l : List Card) (seen : List (String × String)) :
    ∀ c2 ∈ (dedup seen l).1, l.find? (fun c => cardKey c == cardKey c2) = some c2 := by
  induction l generalizing seen with
  | nil => intro c2 hc2; simp [dedup] at hc2
  | cons c rest ih =>
    intro c2 hc2
    by_cases h : (seen.contains (cardKey c)) = true
    · simp only [dedup, h, if_true] at hc2
      have hne : cardKey c ≠ cardKey c2 := by
        intro he
        exact dedup_not_seen rest seen c2 hc2 (he ▸ (contains_eq_memPair _ _).1 h)
      rw [List.find?_cons_of_neg _ (by simpa using hne)]
      exact ih seen c2 hc2
    · simp only [dedup, h, Bool.false_eq_true, if_false] at hc2
      rcases List.mem_cons.1 hc2 with rfl | hmem
      · rw [List.find?_cons_of_pos _ (by simp)]
      · have hnotk : cardKey c2 ∉ (seen ++ [cardKey c]) :=
          dedup_not_seen rest (seen ++ [cardKey c]) c2 hmem
        have hne : cardKey c ≠ cardKey c2 := by
          intro he
          exact hnotk (List.mem_append_right _ (by simp [he]))
        rw [List.find?_cons_of_neg _ (by simpa using hne)]
        exact ih (seen ++ [cardKey c]) c2 hmem

theorem dedup_flag (l : List Card) (seen : List (String × String)) :
    (dedup seen l).2 = true ↔ (¬ (l.map cardKey).Nodup ∨ ∃ c ∈ l, cardKey c ∈ seen) := by
  induction l generalizing seen with
  | nil => simp [dedup]
  | cons c rest ih =>
    by_cases h : (seen.contains (cardKey c)) = true
    · have hcs : cardKey c ∈ seen := (contains_eq_memPair _ _).1 h
      simp only [dedup, h, if_true]
      constructor
      · intro _
        exact Or.inr ⟨c, List.mem_cons_self _ _, hcs⟩
      · intro _
        trivial
    · have hcs : cardKey c ∉ seen := fun hmem => h ((contains_eq_memPair _ _).2 hmem)
      simp only [dedup, h, Bool.false_eq_true, if_false]
      rw [ih (seen ++ [cardKey c])]
      constructor
      · rintro (hnd | ⟨c3, hc3, hs⟩)
        · exact Or.inl (fun hnd2 => hnd (List.nodup_cons.1 (by simpa using hnd2)).2)
        · rcases List.mem_append.1 hs with hs2 | hk
          · exact Or.inr ⟨c3, List.mem_cons_of_mem _ hc3, hs2⟩
          · have hk2 : cardKey c3 = cardKey c := by simpa using hk
            refine Or.inl (fun hnd2 => ?_)
            exact (List.nodup_cons.1 (by simpa using hnd2)).1 (List.mem_map.2 ⟨c3, hc3, hk2⟩)
      · rintro (hnd | ⟨c3, hc3, hs⟩)
        · by_cases hmem : cardKey c ∈ rest.map cardKey
          · rcases List.mem_map.1 hmem with ⟨c3, hc3, hk⟩
            exact Or.inr ⟨c3, hc3, List.mem_append_right _ (by simp [hk])⟩
          · by_cases hnd2 : (rest.map cardKey).Nodup
            · exact absurd (by simpa using List.nodup_cons.2 ⟨hmem, hnd2⟩) hnd
            · exact Or.inl hnd2
        · rcases List.mem_cons.1 hc3 with rfl | hc3r
          · exact absurd hs hcs
          · exact Or.inr ⟨c3, hc3r, List.mem_append_left _ hs⟩

theorem dedup_of_nodup (l : List Card) (seen : List (String × String))
    (hseen : ∀ c ∈ l, cardKey c ∉ seen) (hnd : (l.map cardKey).Nodup) :
    dedup seen l = (l, false) := by
  induction l generalizing seen with
  | nil => rfl
  | cons c rest ih =>
    have h : ¬ ((seen.contains (cardKey c)) = true) := by
      intro h
      exact hseen c (List.mem_cons_self _ _) ((contains_eq_memPair _ _).1 h)
    simp only [dedup, h, Bool.false_eq_true, if_false]
    have hrec : dedup (seen ++ [cardKey c]) rest = (rest, false) := by
      apply ih
      · intro c3 hc3 hmem
        rcases List.mem_append.1 hmem with hs | hk
        · exact hseen c3 (List.mem_cons_of_mem _ hc3) hs
        · have : cardKey c ∈ rest.map cardKey :=
            List.mem_map.2 ⟨c3, hc3, by simpa using hk⟩
          exact (List.nodup_cons.1 (by simpa using hnd)).1 this
      · exact (List.nodup_cons.1 (by simpa using hnd)).2
    rw [hrec]

/-- C6: the duplicate-removal step never fails: it keeps exactly the first
card of each (number, name) key in construction order and drops later
occurrences, the surviving keys are pairwise distinct, a duplicate is
reported through a warning whose text carries the offending set name, and
deduplicating an already-deduplicated list changes nothing. -/
theorem C6_dedup (cards : List Card) (g : Group) :
    (((dedup [] cards).1).map cardKey).Nodup ∧
    ((dedup [] cards).1).Sublist cards ∧
    (∀ c ∈ cards, ∃ c2 ∈ (dedup [] cards).1, cardKey c2 = cardKey c) ∧
    (∀ c2 ∈ (dedup [] cards).1,
      cards.find? (fun c => cardKey c == cardKey c2) = some c2) ∧
    ((dedup [] cards).2 = true ↔ ¬ (cards.map cardKey).Nodup) ∧
    dedup [] (dedup [] cards).1 = ((dedup [] cards).1, false) ∧
    ((processGroup g).2 = [] ∨
      ((processGroup g).2 = [dupMsg g.base_set] ∧
        ∃ pre suf : List Char, (dupMsg g.base_set).data = pre ++ g.base_set.data ++ suf)) := by
  refine ⟨dedup_keys_nodup cards [], dedup_sublist cards [], ?_, dedup_find cards [],
    ?_, ?_, ?_⟩
  · intro c hc
    rcases dedup_covers cards [] c hc with hmem | h
    · cases hmem
    · exact h
  · rw [dedup_flag]
    constructor
    · rintro (h | ⟨c, _, hmem⟩)
      · exact h
      · cases hmem
    · exact Or.inl
  · exact dedup_of_nodup _ _ (fun c _ h => by cases h) (dedup_keys_nodup cards [])
  · have hmsg : ∃ pre suf : List Char,
        (dupMsg g.base_set).data = pre ++ g.base_set.data ++ suf := by
      refine ⟨("Warning: Duplicate records found in set \x27" : String).data,
        ("\x27. Please manually verify the accuracy." : String).data, ?_⟩
      rw [dupMsg, String.data_append, String.data_append]
    by_cases hd : (dedup [] (parStateOf g).cards).2 = true
    · exact Or.inr ⟨by simp [processGroup, hd], hmsg⟩
    · exact Or.inl (by simp [processGroup, hd])

/-- Witness for C6: in a concrete list with a duplicated key, the surviving
list still covers the duplicated card's key. -/
theorem C6_dedup_witness :
    ∃ c2 ∈ (dedup [] [cDup1, cDup2, cDup3]).1, cardKey c2 = cardKey cDup2 :=
  (C6_dedup [cDup1, cDup2, cDup3] gBase).2.2.1 cDup2 (by decide)

/-! ## C2 and C10: the parallel-processing loop -/

theorem attachFirst_eq_none (p : Parallel) (num : String) (l : List Card) :
    attachFirst p num l = none ↔ ∀ c ∈ l, c.number ≠ num := by
  induction l with
  | nil => simp [attachFirst]
  | cons c rest ih =>
    by_cases h : (c.number == num) = true
    · have he : c.number = num := beq_iff_eq.1 h
      simp only [attachFirst, h, if_true]
      constructor
      · intro hcon
        exact absurd hcon (by simp)
      · intro hall
        exact absurd he (hall c (List.mem_cons_self _ _))
    · have hne : c.number ≠ num := fun he => h (beq_iff_eq.2 he)
      simp only [attachFirst, h, Bool.false_eq_true, if_false]
      rw [Option.map_eq_none', ih]
      constructor
      · intro hall c2 hc2
        rcases List.mem_cons.1 hc2 with rfl | hm
        · exact hne
        · exact hall c2 hm
      · intro hall c2 hc2
        exact hall c2 (List.mem_cons_of_mem _ hc2)

theorem attachFirst_first (p : Parallel) (num : String) (pre : List Card) (c : Card)
    (post : List Card) (hpre : ∀ c2 ∈ pre, c2.number ≠ num) (hc : c.number = num) :
    attachFirst p num (pre ++ c :: post) =
      some (pre ++ ({ c with parallels := c.parallels ++ [p] }) :: post) := by
  induction pre with
  | nil =>
    simp only [List.nil_append, attachFirst]
    rw [if_pos (beq_iff_eq.mpr hc)]
  | cons q pre2 ih =>
    have hq : ¬ ((q.number == num) = true) := by
      simpa [beq_iff_eq] using hpre q (List.mem_cons_self _ _)
    simp only [List.cons_append, attachFirst, List.append_eq]
    rw [if_neg hq, ih (fun c2 h => hpre c2 (List.mem_cons_of_mem _ h))]
    rfl

/-- C2 counterexample: in `gC2x` the parallel "Gold" covers all base card
numbers, so the script records it as a single Set-level parallel; its rows
do NOT all share a non-absent sequence value (the second row's sequence is
absent), yet the Set-level parallel still carries `numberedTo = 25`,
contradicting the claim that `numberedTo` is present only when all rows in
the group share one non-absent value. -/
theorem C2_counterexample :
    (processGroup gC2x).1.parallels = [{ name := "Gold", numberedTo := some 25 }] ∧
    parseSeq (sampleRow "S Gold" "2" "B" "").sequence = none ∧
    setEqStr (rowNumbers (gC2x.parallel_rows.map Prod.fst)) (rowNumbers gC2x.base_rows)
      = true := by
  decide

/-- C2 (amended): for one parallel-name group, when its covered canonical
card numbers are set-equal to the current card-number set, exactly one
Set-level parallel is recorded, carrying `numberedTo` exactly when the
distinct non-absent sequence values of the group's rows are one single
value; otherwise each row is attached in turn: a row matching no card
synthesizes a placeholder card (note "No Base Set Version", the parallel as
its sole entry, the inferred attributes) and enlarges the number set, while
a row matching a card appends the parallel to the first card with that
number. -/
theorem C2_parallel_attachment (attrs : List String) (st : ParState) (pname : String)
    (rows : List RawRow) (r : RawRow) :
    (setEqStr (rowNumbers rows) st.nums = true →
      processName attrs st (pname, rows) =
        { st with setParallels := st.setParallels ++
            [{ name := pname, numberedTo := uniformSeqOf rows }] }) ∧
    (setEqStr (rowNumbers rows) st.nums = false →
      processName attrs st (pname, rows) = rows.foldl (attachRow attrs pname) st) ∧
    ((∀ c ∈ st.cards, c.number ≠ normalize_card_number r.cardNumber) →
      attachRow attrs pname st r =
        { st with cards := st.cards ++ [synthCard attrs pname r],
                  nums := addSetStr st.nums (normalize_card_number r.cardNumber) }) ∧
    (∀ pre c post, st.cards = pre ++ c :: post →
      (∀ c2 ∈ pre, c2.number ≠ normalize_card_number r.cardNumber) →
      c.number = normalize_card_number r.cardNumber →
      attachRow attrs pname st r =
        { st with cards := pre ++ ({ c with parallels := c.parallels ++
            [{ name := pname, numberedTo := parseSeq r.sequence }] }) :: post }) := by
  refine ⟨?_, ?_, ?_, ?_⟩
  · intro h
    simp [processName, h]
  · intro h
    simp [processName, h]
  · intro h
    have hnone : attachFirst { name := pname, numberedTo := parseSeq r.sequence }
        (normalize_card_number r.cardNumber) st.cards = none :=
      (attachFirst_eq_none _ _ _).2 h
    simp [attachRow, hnone]
  · intro pre c post hcards hpre hc
    have hsome := attachFirst_first { name := pname, numberedTo := parseSeq r.sequence }
      (normalize_card_number r.cardNumber) pre c post hpre hc
    simp only [attachRow, hcards, hsome]

/-- Witness for C2: on the concrete group `gC2x`, the "Gold" group is
recorded as one Set-level parallel and the card list is untouched. -/
theorem C2_parallel_attachment_witness :
    processName []
      { cards := baseCards gC2x, nums := rowNumbers gC2x.base_rows, setParallels := [] }
      ("Gold", gC2x.parallel_rows.map Prod.fst) =
      { cards := baseCards gC2x, nums := rowNumbers gC2x.base_rows,
        setParallels := [] ++ [⟨"Gold", uniformSeqOf (gC2x.parallel_rows.map Prod.fst)⟩] } :=
  (C2_parallel_attachment []
    { cards := baseCards gC2x, nums := rowNumbers gC2x.base_rows, setParallels := [] }
    "Gold" (gC2x.parallel_rows.map Prod.fst) (sampleRow "S" "1" "A" "")).1 (by decide)

theorem mem_addSetStr (l : List String) (x : String) : x ∈ addSetStr l x := by
  rw [addSetStr]
  by_cases h : l.contains x = true
  · rw [if_pos h]
    exact (contains_eq_memStr l x).1 h
  · rw [if_neg h]
    exact List.mem_append_right _ (List.mem_singleton.2 rfl)

/-- C10: when a parallel row matches no current card, the synthesized
placeholder's canonical number is added to the card-number set, and later
parallel names are classified against the enlarged set; names are
processed in first-appearance order, so classification depends on that
order, as the two concrete groups (equal as multisets of parallel rows)
show: with "A" processed first, "B" becomes a Set-level parallel, with "B"
processed first it stays card-level. -/
theorem C10_enlarged_numbers (attrs : List String) (pname : String) (st : ParState)
    (r : RawRow) :
    ((∀ c ∈ st.cards, c.number ≠ normalize_card_number r.cardNumber) →
      (attachRow attrs pname st r).nums =
        addSetStr st.nums (normalize_card_number r.cardNumber) ∧
      normalize_card_number r.cardNumber ∈ (attachRow attrs pname st r).nums) ∧
    (processGroup gC10a).1.parallels = [{ name := "B", numberedTo := none }] ∧
    (processGroup gC10b).1.parallels = [] ∧
    (gC10a.parallel_rows).Perm gC10b.parallel_rows ∧
    (groupByName gC10a.parallel_rows).map Prod.fst = ["A", "B"] ∧
    (groupByName gC10b.parallel_rows).map Prod.fst = ["B", "A"] := by
  refine ⟨?_, by decide, by decide, by decide, by decide, by decide⟩
  intro h
  have hnone : attachFirst { name := pname, numberedTo := parseSeq r.sequence }
      (normalize_card_number r.cardNumber) st.cards = none :=
    (attachFirst_eq_none _ _ _).2 h
  constructor
  · simp [attachRow, hnone]
  · simp only [attachRow, hnone]
    exact mem_addSetStr _ _

/-- Witness for C10: attaching the unmatched "A" row of `gC10a` enlarges
the card-number set by the canonical number "2". -/
theorem C10_enlarged_numbers_witness :
    (attachRow (get_attributes_for_set "S") "A"
        { cards := baseCards gC10a, nums := rowNumbers gC10a.base_rows, setParallels := [] }
        (sampleRow "S A" "2" "B" "")).nums =
      addSetStr (rowNumbers gC10a.base_rows) (normalize_card_number "2") ∧
    normalize_card_number "2" ∈
      (attachRow (get_attributes_for_set "S") "A"
        { cards := baseCards gC10a, nums := rowNumbers gC10a.base_rows, setParallels := [] }
        (sampleRow "S A" "2" "B" "")).nums :=
  (C10_enlarged_numbers (get_attributes_for_set "S") "A"
    { cards := baseCards gC10a, nums := rowNumbers gC10a.base_rows, setParallels := [] }
    (sampleRow "S A" "2" "B" "")).1 (by decide)

/-! ## C1: uniform sequence collapse -/

theorem samePayload_trans {a b c : Card} (h1 : samePayload a b) (h2 : samePayload b c) :
    samePayload a c :=
  ⟨h2.1.trans h1.1, h2.2.trans h1.2⟩

theorem attachFirst_payload (p : Parallel) (num : String) (l l2 : List Card)
    (h : attachFirst p num l = some l2) :
    ∀ c2 ∈ l2, ∃ c ∈ l, samePayload c c2 := by
  induction l generalizing l2 with
  | nil => cases h
  | cons c rest ih =>
    by_cases hb : (c.number == num) = true
    · simp only [attachFirst, hb, if_true, Option.some.injEq] at h
      subst h
      intro c2 hc2
      rcases List.mem_cons.1 hc2 with rfl | hm
      · exact ⟨c, List.mem_cons_self _ _, rfl, rfl⟩
      · exact ⟨c2, List.mem_cons_of_mem _ hm, rfl, rfl⟩
    · simp only [attachFirst, hb, Bool.false_eq_true, if_false] at h
      rcases Option.map_eq_some'.1 h with ⟨l3, h3, rfl⟩
      intro c2 hc2
      rcases List.mem_cons.1 hc2 with rfl | hm
      · exact ⟨c2, List.mem_cons_self _ _, rfl, rfl⟩
      · rcases ih l3 h3 c2 hm with ⟨c4, hc4, hp⟩
        exact ⟨c4, List.mem_cons_of_mem _ hc4, hp⟩

theorem attachRow_payload (attrs : List String) (pname : String) (st : ParState)
    (r : RawRow) :
    ∀ c2 ∈ (attachRow attrs pname st r).cards,
      (∃ c ∈ st.cards, samePayload c c2) ∨ c2.note = some "No Base Set Version" := by
  intro c2 hc2
  rcases hAF : attachFirst { name := pname, numberedTo := parseSeq r.sequence }
      (normalize_card_number r.cardNumber) st.cards with _ | cards2
  · simp only [attachRow, hAF] at hc2
    rcases List.mem_append.1 hc2 with hm | hm
    · exact Or.inl ⟨c2, hm, rfl, rfl⟩
    · have he : c2 = synthCard attrs pname r := by simpa using hm
      exact Or.inr (by rw [he]; rfl)
  · simp only [attachRow, hAF] at hc2
    rcases attachFirst_payload _ _ _ _ hAF c2 hc2 with ⟨c, hc, hp⟩
    exact Or.inl ⟨c, hc, hp⟩

theorem attachFold_payload (attrs : List String) (pname : String) (rows : List RawRow)
    (st : ParState) :
    ∀ c2 ∈ (rows.foldl (attachRow attrs pname) st).cards,
      (∃ c ∈ st.cards, samePayload c c2) ∨ c2.note = some "No Base Set Version" := by
  induction rows generalizing st with
  | nil =>
    intro c2 hc2
    exact Or.inl ⟨c2, hc2, rfl, rfl⟩
  | cons r rest ih =>
    intro c2 hc2
    rcases ih (attachRow attrs pname st r) c2 (by simpa using hc2) with ⟨c3, hc3, hp⟩ | hn
    · rcases attachRow_payload attrs pname st r c3 hc3 with ⟨c4, hc4, hp2⟩ | hn2
      · exact Or.inl ⟨c4, hc4, samePayload_trans hp2 hp⟩
      · exact Or.inr (hp.2.trans hn2)
    · exact Or.inr hn

theorem processName_payload (attrs : List String) (st : ParState)
    (pr : String × List RawRow) :
    ∀ c2 ∈ (processName attrs st pr).cards,
      (∃ c ∈ st.cards, samePayload c c2) ∨ c2.note = some "No Base Set Version" := by
  intro c2 hc2
  by_cases h : setEqStr (rowNumbers pr.2) st.nums = true
  · simp only [processName, h, if_true] at hc2
    exact Or.inl ⟨c2, hc2, rfl, rfl⟩
  · simp only [processName, h, Bool.false_eq_true, if_false] at hc2
    exact attachFold_payload attrs pr.1 pr.2 st c2 hc2

theorem parLoop_payload (attrs : List String) (prl : List (String × List RawRow))
    (st : ParState) :
    ∀ c2 ∈ (prl.foldl (processName attrs) st).cards,
      (∃ c ∈ st.cards, samePayload c c2) ∨ c2.note = some "No Base Set Version" := by
  induction prl generalizing st with
  | nil =>
    intro c2 hc2
    exact Or.inl ⟨c2, hc2, rfl, rfl⟩
  | cons pr rest ih =>
    intro c2 hc2
    rcases ih (processName attrs st pr) c2 (by simpa using hc2) with ⟨c3, hc3, hp⟩ | hn
    · rcases processName_payload attrs st pr c3 hc3 with ⟨c4, hc4, hp2⟩ | hn2
      · exact Or.inl ⟨c4, hc4, samePayload_trans hp2 hp⟩
      · exact Or.inr (hp.2.trans hn2)
    · exact Or.inr hn

/-- C1 counterexample.  In `gC1b` not every base card has a sequence value
(the second row's is absent), so by the claim the first card should keep
its own `numberedTo = 10`; instead the script promotes 10 to the Set and
strips every per-card value.  In `gC1a` every base card has sequence 10, so
by the claim no card of the Set should carry a per-card `numberedTo`; yet
the placeholder card synthesized from the unmatched "Gold" parallel row
carries `numberedTo = 25`. -/
theorem C1_counterexample :
    parseSeq (sampleRow "S" "2" "B" "").sequence = none ∧
    (processGroup gC1b).1.numberedTo = some 10 ∧
    ((processGroup gC1b).1.cards.map Card.numberedTo) = [none, none] ∧
    parseSeq (sampleRow "S" "1" "A" "10").sequence = some 10 ∧
    gC1a.base_rows = [sampleRow "S" "1" "A" "10"] ∧
    (processGroup gC1a).1.numberedTo = some 10 ∧
    ((processGroup gC1a).1.cards.map Card.numberedTo) = [none, some 25] ∧
    ((processGroup gC1a).1.cards.map Card.note) = [none, some "No Base Set Version"] := by
  decide

/-- C1 (amended): when the distinct non-absent sequence values of a group's
base rows are exactly one value V (at least one row has a value and all
present values agree), the Set's `numberedTo` becomes V and every
base-derived card (every card of the Set without the placeholder note)
carries no per-card `numberedTo`; otherwise the Set carries no `numberedTo`
and every base card keeps its own parsed value when present.  Placeholder
cards synthesized from unmatched parallel rows may carry a `numberedTo` in
either case. -/
theorem C1_uniform_collapse (g : Group) :
    (∀ v, distinctSeqs g.base_rows = [v] →
      ((processGroup g).1.numberedTo = some v ∧
       (baseCards g).map Card.numberedTo = g.base_rows.map (fun _ => none) ∧
       ∀ c ∈ (processGroup g).1.cards, c.note = none → c.numberedTo = none)) ∧
    ((∀ v, distinctSeqs g.base_rows ≠ [v]) →
      ((processGroup g).1.numberedTo = none ∧
       (baseCards g).map Card.numberedTo = g.base_rows.map (fun r => parseSeq r.sequence))) := by
  constructor
  · intro v hv
    have hu : uniformSeqOf g.base_rows = some v := by
      simp only [uniformSeqOf, hv]
    refine ⟨hu, ?_, ?_⟩
    · rw [baseCards, List.map_map]
      have hf : (Card.numberedTo ∘ buildBaseCard (get_attributes_for_set g.base_set)
          (uniformSeqOf g.base_rows).isSome) = (fun _ : RawRow => none) := by
        funext r
        simp [buildBaseCard, hu, Function.comp]
      rw [hf]
    · intro c hc hnote
      have hc2 : c ∈ (parStateOf g).cards := (dedup_sublist _ _).subset hc
      rcases parLoop_payload _ _ _ c hc2 with ⟨c0, hc0, hp⟩ | hn
      · have hc0b : c0 ∈ baseCards g := hc0
        rcases List.mem_map.1 hc0b with ⟨r, _, he⟩
        have h0 : c0.numberedTo = none := by
          rw [← he]
          simp [buildBaseCard, hu]
        rw [hp.1, h0]
      · rw [hnote] at hn
        exact Option.noConfusion hn
  · intro hnv
    have hu : uniformSeqOf g.base_rows = none := by
      rcases hd : distinctSeqs g.base_rows with _ | ⟨a, _ | ⟨b, tl⟩⟩
      · simp only [uniformSeqOf, hd]
      · exact absurd hd (hnv a)
      · simp only [uniformSeqOf, hd]
    refine ⟨hu, ?_⟩
    rw [baseCards, List.map_map]
    have hf : (Card.numberedTo ∘ buildBaseCard (get_attributes_for_set g.base_set)
        (uniformSeqOf g.base_rows).isSome) = (fun r : RawRow => parseSeq r.sequence) := by
      funext r
      simp [buildBaseCard, hu, Function.comp]
    rw [hf]

/-- Witness for C1: on the concrete group `gUni`, whose base rows share
sequence value 10, the Set is numbered to 10 and no base-derived card
carries a per-card value. -/
theorem C1_uniform_collapse_witness :
    (processGroup gUni).1.numberedTo = some 10 ∧
    (baseCards gUni).map Card.numberedTo = gUni.base_rows.map (fun _ => none) ∧
    ∀ c ∈ (processGroup gUni).1.cards, c.note = none → c.numberedTo = none :=
  (C1_uniform_collapse gUni).1 10 (by decide)

/-! ## C5: sparse serialization -/

/-- C5 counterexample: a complete concrete run whose single set has no
set-level parallels still serializes a `"parallels"` key with an empty
array in the set object, and the document object always carries empty
`"attributes"` and `"notes"` arrays — the optional fields are NOT omitted
from every object in which they are empty. -/
theorem C5_counterexample :
    runMain [rowC5] = some (Json.obj
      [("$schema", Json.str "http://json-schema.org/draft-07/schema#"),
       ("name", Json.str "2020 Panini Prizm Basketball"),
       ("version", Json.str "1.0"),
       ("attributes", Json.arr []),
       ("notes", Json.arr []),
       ("sets", Json.arr [Json.obj
         [("name", Json.str "Topps"),
          ("cards", Json.arr [Json.obj
            [("number", Json.str "1"), ("name", Json.str "A")]]),
          ("parallels", Json.arr []),
          ("variations", Json.arr [])]])]) := by
  rfl

/-- C5 (amended): the sparse-field convention holds at the card and
parallel levels and for the set-level `numberedTo` — those fields are
emitted exactly when present/nonempty and never as null — but every
serialized set object unconditionally carries a `"parallels"` key (an
empty array when there are no set-level parallels) and every serialized
document unconditionally carries empty `"attributes"` and `"notes"`
arrays. -/
theorem C5_sparse_fields (c : Card) (p : Parallel) (s : CardSet) (d : Doc) :
    (("numberedTo" ∈ (serializeCardFields c).map Prod.fst) ↔ c.numberedTo.isSome = true) ∧
    (("note" ∈ (serializeCardFields c).map Prod.fst) ↔ c.note.isSome = true) ∧
    (("attributes" ∈ (serializeCardFields c).map Prod.fst) ↔ c.attributes ≠ []) ∧
    (("parallels" ∈ (serializeCardFields c).map Prod.fst) ↔ c.parallels ≠ []) ∧
    Json.null ∉ (serializeCardFields c).map Prod.snd ∧
    (("numberedTo" ∈ (serializeParallelFields p).map Prod.fst) ↔ p.numberedTo.isSome = true) ∧
    Json.null ∉ (serializeParallelFields p).map Prod.snd ∧
    (("numberedTo" ∈ (serializeSetFields s).map Prod.fst) ↔ s.numberedTo.isSome = true) ∧
    ("parallels", Json.arr (s.parallels.map serializeParallel)) ∈ serializeSetFields s ∧
    ("attributes", Json.arr []) ∈ serializeDocFields d ∧
    Json.null ∉ (serializeDocFields d).map Prod.snd := by
  obtain ⟨num, cname, nTo, attrs, prl, note⟩ := c
  obtain ⟨pn, pt⟩ := p
  obtain ⟨sn, scards, sprl, snTo⟩ := s
  refine ⟨?_, ?_, ?_, ?_, ?_, ?_, ?_, ?_, ?_, ?_, ?_⟩
  · cases nTo <;> cases note <;> cases attrs <;> cases prl <;> simp [serializeCardFields]
  · cases nTo <;> cases note <;> cases attrs <;> cases prl <;> simp [serializeCardFields]
  · cases nTo <;> cases note <;> cases attrs <;> cases prl <;> simp [serializeCardFields]
  · cases nTo <;> cases note <;> cases attrs <;> cases prl <;> simp [serializeCardFields]
  · cases nTo <;> cases note <;> cases attrs <;> cases prl <;> simp [serializeCardFields]
  · cases pt <;> simp [serializeParallelFields]
  · cases pt <;> simp [serializeParallelFields]
  · cases snTo <;> simp [serializeSetFields]
  · cases snTo <;> simp [serializeSetFields]
  · simp [serializeDocFields]
  · simp [serializeDocFields]

/-- Witness for C5: the amended statement applied to a concrete card,
parallel, set and document. -/
theorem C5_sparse_fields_witness :
    (("numberedTo" ∈ (serializeCardFields cDup2).map Prod.fst) ↔
      cDup2.numberedTo.isSome = true) ∧
    (("note" ∈ (serializeCardFields cDup2).map Prod.fst) ↔ cDup2.note.isSome = true) ∧
    (("attributes" ∈ (serializeCardFields cDup2).map Prod.fst) ↔ cDup2.attributes ≠ []) ∧
    (("parallels" ∈ (serializeCardFields cDup2).map Prod.fst) ↔ cDup2.parallels ≠ []) ∧
    Json.null ∉ (serializeCardFields cDup2).map Prod.snd ∧
    (("numberedTo" ∈ (serializeParallelFields ⟨"Gold", some 25⟩).map Prod.fst) ↔
      (some 25 : Option Nat).isSome = true) ∧
    Json.null ∉ (serializeParallelFields ⟨"Gold", some 25⟩).map Prod.snd ∧
    (("numberedTo" ∈ (serializeSetFields (processGroup gUni).1).map Prod.fst) ↔
      (processGroup gUni).1.numberedTo.isSome = true) ∧
    ("parallels", Json.arr ((processGroup gUni).1.parallels.map serializeParallel)) ∈
      serializeSetFields (processGroup gUni).1 ∧
    ("attributes", Json.arr []) ∈ serializeDocFields docC5 ∧
    Json.null ∉ (serializeDocFields docC5).map Prod.snd :=
  C5_sparse_fields cDup2 ⟨"Gold", some 25⟩ (processGroup gUni).1 docC5

/-! ## C8: fatal empty input, no partial output -/

/-- C8: a run on an input with zero data rows fails (the metadata access
raises, modelled as `Except.error`) and writes nothing; in general the
modelled `__main__` writes the serialized document exactly when the
normalizer succeeded, so a failing run produces no output, and any run
with at least one row succeeds. -/
theorem C8_empty_input_fatal :
    process_csv [] =
      Except.error "KeyError: 0 (no rows: top-level metadata unavailable)" ∧
    runMain [] = none ∧
    (∀ rows : List RawRow, runMain rows = none ↔ ∃ e, process_csv rows = Except.error e) ∧
    (∀ rows d, process_csv rows = Except.ok d → runMain rows = some (serializeDoc d)) := by
  refine ⟨rfl, rfl, ?_, ?_⟩
  · intro rows
    cases rows with
    | nil =>
      constructor
      · intro _
        exact ⟨_, rfl⟩
      · intro _
        rfl
    | cons r0 rest => simp [runMain, process_csv]
  · intro rows d h
    cases rows with
    | nil => cases h
    | cons r0 rest =>
      simp only [process_csv, Except.ok.injEq] at h
      simp [runMain, process_csv, h]

/-- Witness for C8: the one-row run succeeds and writes the serialized
document of `docC5`. -/
theorem C8_empty_input_fatal_witness :
    runMain [rowC5] = some (serializeDoc docC5) :=
  C8_empty_input_fatal.2.2.2 [rowC5] docC5 rfl

/-! ## C9: the flattener's release derivation and record fields -/

theorem afterFirstHyphen_of_not_mem (l : List Char) (h : '-' ∉ l) :
    afterFirstHyphen l = none := by
  induction l with
  | nil => rfl
  | cons c rest ih =>
    have hc : ¬ ((c == '-') = true) := by
      simp only [beq_iff_eq]
      intro he
      exact h (he ▸ List.mem_cons_self _ _)
    simp only [afterFirstHyphen]
    rw [if_neg hc]
    exact ih (fun hm => h (List.mem_cons_of_mem _ hm))

theorem afterFirstHyphen_append (pre post : List Char) (h : '-' ∉ pre) :
    afterFirstHyphen (pre ++ '-' :: post) = some post := by
  induction pre with
  | nil => simp [afterFirstHyphen]
  | cons c rest ih =>
    have hc : ¬ ((c == '-') = true) := by
      simp only [beq_iff_eq]
      intro he
      exact h (he ▸ List.mem_cons_self _ _)
    simp only [List.cons_append, afterFirstHyphen]
    rw [if_neg hc]
    exact ih (fun hm => h (List.mem_cons_of_mem _ hm))

/-- C9 counterexample: for the stem "Upper-Deck" in a "1990" year
directory, the script derives release "Deck" (everything after the first
hyphen), while the claimed rule (strip a leading "\x3cyear\x3e-" token)
would leave "Upper-Deck" unchanged. -/
theorem C9_counterexample :
    releaseFromStem "Upper-Deck" = "Deck" ∧
    releaseSpec "1990" "Upper-Deck" = "Upper-Deck" ∧
    ("Deck" : String) ≠ "Upper-Deck" := by
  decide

/-- C9 (amended): the release is the filename stem when it has no hyphen,
and everything after the first hyphen otherwise (so "1990-Topps" in year
1990 gives "Topps", but the rule is first-hyphen, not year-prefix,
stripping); every emitted record carries the directory-derived category and
year, the derived release, the document name, the set name, and the card's
number, name, attributes and note. -/
theorem C9_flattener (category year stem : String) (d : Doc) (rec : FlatRecord) :
    ('-' ∉ stem.data → releaseFromStem stem = stem) ∧
    (∀ pre post : List Char, stem.data = pre ++ '-' :: post → '-' ∉ pre →
      releaseFromStem stem = ⟨post⟩) ∧
    (rec ∈ fileRecords category year stem d →
      (rec.category = category ∧ rec.year = year ∧
       rec.release = releaseFromStem stem ∧ rec.source = d.name ∧
       ∃ s ∈ d.sets, rec.set = s.name ∧
         ∃ c ∈ s.cards, rec.card_number = c.number ∧ rec.card_name = c.name ∧
           rec.attributes = c.attributes ∧ rec.note = c.note.getD "")) := by
  refine ⟨?_, ?_, ?_⟩
  · intro h
    simp only [releaseFromStem, afterFirstHyphen_of_not_mem _ h]
  · intro pre post hsplit hpre
    have hres : afterFirstHyphen stem.data = some post := by
      rw [hsplit]
      exact afterFirstHyphen_append _ _ hpre
    simp only [releaseFromStem, hres]
  · intro hrec
    simp only [fileRecords, flatten_card_data, List.mem_flatten, List.mem_map] at hrec
    rcases hrec with ⟨recs, ⟨s, hs, rfl⟩, hrec2⟩
    rcases List.mem_map.1 hrec2 with ⟨c, hc, rfl⟩
    exact ⟨rfl, rfl, rfl, rfl, s, hs, rfl, c, hc, rfl, rfl, rfl, rfl⟩

/-- Witness for C9: the stem "1990-Topps" yields release "Topps", via the
first-hyphen rule. -/
theorem C9_flattener_witness :
    releaseFromStem "1990-Topps" = ⟨"Topps".data⟩ :=
  (C9_flattener "baseball" "1990" "1990-Topps" docC5
      ⟨"", "", "", "", "", "", "", [], ""⟩).2.1
    "1990".data "Topps".data (by decide) (by decide)

end CardLists
